import Mathlib

/-!
Verification development for a media-authenticity dApp:
a consensus gate over deepfake-detector votes (client `FileUpload.js`),
a content-addressable access-control ledger (`contracts/Upload.sol`),
and a fingerprint re-check step (client `Display.js`).

The definitions below are shallow embeddings of the corresponding
source functions; theorems settle the behavioural claims about them.
Confidence values and ratios are modelled over `ℚ`.
-/

namespace Consensus

/-- One detector-node response, as validated by `handleSubmit` step 3:
`is_deepfake` is a boolean and `confidence` a number (range-checked later
inside `determineConsensus`). -/
structure NodeResult where
  is_deepfake : Bool
  confidence : ℚ
  deriving DecidableEq, Repr

/-- The decision of `determineConsensus`. -/
inductive Verdict where
  | real
  | deepfake
  | inconclusive
  deriving DecidableEq, Repr

/-- Return value of `determineConsensus`: the decision, the (percentage)
average confidence of the winning side when there is one, and the
`winningVotes/totalVotes` pair shown to the user. -/
structure ConsensusOutcome where
  consensus : Verdict
  confidence : Option ℚ
  votes : Option (Nat × Nat)
  deriving DecidableEq, Repr

/-- Accumulator of the `results.forEach` loop in `determineConsensus`. -/
structure Tally where
  realVotes : Nat
  fakeVotes : Nat
  totalConfidenceReal : ℚ
  totalConfidenceFake : ℚ
  deriving DecidableEq, Repr

/-- One iteration of the `results.forEach` loop: skip results whose
confidence is not in `[0,1]`, otherwise count the vote and accumulate
its confidence on its side. -/
def tallyStep (t : Tally) (r : NodeResult) : Tally :=
  if r.confidence < 0 ∨ 1 < r.confidence then t
  else if r.is_deepfake then
    { t with fakeVotes := t.fakeVotes + 1,
             totalConfidenceFake := t.totalConfidenceFake + r.confidence }
  else
    { t with realVotes := t.realVotes + 1,
             totalConfidenceReal := t.totalConfidenceReal + r.confidence }

/-- The whole `forEach` tally over the results list. -/
def tally (results : List NodeResult) : Tally :=
  results.foldl tallyStep ⟨0, 0, 0, 0⟩

/-- `CONSENSUS_THRESHOLD` from `FileUpload.js`. -/
def CONSENSUS_THRESHOLD : ℚ := 1/2

/-- `totalVotes` in `determineConsensus`. -/
def totalVotes (results : List NodeResult) : Nat :=
  (tally results).realVotes + (tally results).fakeVotes

/-- `realRatio = realVotes / totalVotes` in `determineConsensus`. -/
def realRatio (results : List NodeResult) : ℚ :=
  ((tally results).realVotes : ℚ) / (totalVotes results : ℚ)

/-- `fakeRatio = fakeVotes / totalVotes` in `determineConsensus`. -/
def fakeRatio (results : List NodeResult) : ℚ :=
  ((tally results).fakeVotes : ℚ) / (totalVotes results : ℚ)

/-- `determineConsensus(results)` from `FileUpload.js`, with the
threshold constant lifted to a parameter.  Mirrors the source: empty
input or zero valid votes yield `inconclusive`; otherwise the side whose
vote ratio strictly exceeds the threshold wins (real checked first) and
its average confidence is reported as a percentage. -/
def determineConsensus (threshold : ℚ) (results : List NodeResult) : ConsensusOutcome :=
  if results.length = 0 then ⟨.inconclusive, none, none⟩
  else if totalVotes results = 0 then ⟨.inconclusive, none, none⟩
  else if realRatio results > threshold then
    ⟨.real,
      some ((if 0 < (tally results).realVotes then
        (tally results).totalConfidenceReal / ((tally results).realVotes : ℚ) else 0) * 100),
      some ((tally results).realVotes, totalVotes results)⟩
  else if fakeRatio results > threshold then
    ⟨.deepfake,
      some ((if 0 < (tally results).fakeVotes then
        (tally results).totalConfidenceFake / ((tally results).fakeVotes : ℚ) else 0) * 100),
      some ((tally results).fakeVotes, totalVotes results)⟩
  else ⟨.inconclusive, none, none⟩

/-- A result is a valid vote when its confidence lies in `[0,1]`. -/
def validVote (r : NodeResult) : Prop := 0 ≤ r.confidence ∧ r.confidence ≤ 1

instance (r : NodeResult) : Decidable (validVote r) := by
  unfold validVote; infer_instance

/-- Confidences of the valid votes on the real side. -/
def validRealConfs (results : List NodeResult) : List ℚ :=
  ((results.filter fun r => decide (validVote r) && !r.is_deepfake).map (·.confidence))

/-- Confidences of the valid votes on the fake side. -/
def validFakeConfs (results : List NodeResult) : List ℚ :=
  ((results.filter fun r => decide (validVote r) && r.is_deepfake).map (·.confidence))

/-- The spec's worked example: three detector votes
`{real 0.9, real 0.8, fake 0.6}`. -/
def exampleVotes : List NodeResult := [⟨false, 9/10⟩, ⟨false, 8/10⟩, ⟨true, 6/10⟩]

/-- A vote set with one valid real vote and two valid fake votes. -/
def oneRealTwoFake : List NodeResult := [⟨false, 1⟩, ⟨true, 1⟩, ⟨true, 1⟩]

/-- The confidences of the votes on the winning side of the decision
(spec wording: the mean is taken over "exactly the votes on the winning
side"). -/
def winningConfs (threshold : ℚ) (results : List NodeResult) : List ℚ :=
  match (determineConsensus threshold results).consensus with
  | .real => validRealConfs results
  | .deepfake => validFakeConfs results
  | .inconclusive => []

/-- A single valid fake vote. -/
def oneFakeVote : List NodeResult := [⟨true, 1⟩]


end Consensus

namespace Upload

/-- Ethereum addresses, modelled as naturals; `0` is the null address. -/
abbrev Addr := Nat

/-- `ImageRecord` struct from `Upload.sol`. -/
structure ImageRecord where
  ipfsCid : String
  imageHash : String
  owner : Addr
  timestamp : Nat
  deriving DecidableEq, Repr

/-- Solidity mapping default for `ImageRecord`. -/
def defaultRecord : ImageRecord := ⟨"", "", 0, 0⟩

/-- Update of a one-key Solidity mapping. -/
def upd {α β : Type} [DecidableEq α] (m : α → β) (k : α) (v : β) : α → β :=
  fun x => if x = k then v else m x

/-- Update of a two-key Solidity mapping. -/
def upd2 {α β γ : Type} [DecidableEq α] [DecidableEq β]
    (m : α → β → γ) (k1 : α) (k2 : β) (v : γ) : α → β → γ :=
  fun a b => if a = k1 ∧ b = k2 then v else m a b

/-- The contract storage of `Upload.sol`. -/
structure UploadState where
  cidToRecord : String → ImageRecord
  userOwnedCIDs : Addr → List String
  itemAccess : String → Addr → Bool
  sharedWithUserCIDs : Addr → List String
  sharedWithUserIndex : Addr → String → Nat
  cidExists : String → Bool

/-- Deployment state: every mapping at its Solidity default. -/
def initialState : UploadState :=
  ⟨fun _ => defaultRecord, fun _ => [], fun _ _ => false, fun _ => [], fun _ _ => 0, fun _ => false⟩

/-- One error per `require` in `Upload.sol`. -/
inductive LedgerError where
  | emptyCid          -- "CID cannot be empty"
  | emptyHash         -- "Hash cannot be empty"
  | duplicateId       -- "CID already exists"
  | itemNotFound      -- "Item does not exist"
  | invalidViewer     -- "Invalid viewer address"
  | notOwnerGrant     -- "Only owner can grant access"
  | selfGrant         -- "Cannot grant access to yourself"
  | alreadyGranted    -- "Access already granted"
  | notOwnerRevoke    -- "Only owner can revoke access"
  | notGranted        -- "Access not currently granted"
  | indexMissing      -- "CID not found in viewer's shared list index"
  | indexOutOfBounds  -- "Index out of bounds"
  deriving DecidableEq, Repr

/-- `add(_ipfsCid, _imageHash)` from `Upload.sol` (caller is `msg.sender`,
`ts` is `block.timestamp`). -/
def add (s : UploadState) (caller : Addr) (cid hash : String) (ts : Nat) :
    Except LedgerError UploadState :=
  if cid = "" then .error .emptyCid
  else if hash = "" then .error .emptyHash
  else if s.cidExists cid then .error .duplicateId
  else .ok { s with
    cidToRecord := upd s.cidToRecord cid ⟨cid, hash, caller, ts⟩,
    userOwnedCIDs := upd s.userOwnedCIDs caller (s.userOwnedCIDs caller ++ [cid]),
    cidExists := upd s.cidExists cid true }

/-- `grantItemAccess(_cid, _viewer)` from `Upload.sol`. -/
def grantItemAccess (s : UploadState) (caller : Addr) (cid : String) (viewer : Addr) :
    Except LedgerError UploadState :=
  if s.cidExists cid = false then .error .itemNotFound
  else if viewer = 0 then .error .invalidViewer
  else if (s.cidToRecord cid).owner ≠ caller then .error .notOwnerGrant
  else if viewer = caller then .error .selfGrant
  else if s.itemAccess cid viewer then .error .alreadyGranted
  else .ok { s with
    itemAccess := upd2 s.itemAccess cid viewer true,
    sharedWithUserIndex :=
      upd2 s.sharedWithUserIndex viewer cid ((s.sharedWithUserCIDs viewer).length + 1),
    sharedWithUserCIDs :=
      upd s.sharedWithUserCIDs viewer (s.sharedWithUserCIDs viewer ++ [cid]) }

/-- The array part of `revokeItemAccess`'s removal: overwrite slot `i`
with the last element (when `i` is not already last) and `pop`. -/
def swapPop (l : List String) (i : Nat) : List String :=
  (if i < l.length - 1 then l.set i (l.getD (l.length - 1) "") else l).dropLast

/-- The index-map part of `revokeItemAccess`'s removal, in source order:
record the moved element's new position first, then delete the removed
element's entry. -/
def popIndex (idx : Addr → String → Nat) (viewer : Addr) (cid : String)
    (l : List String) (i : Nat) : Addr → String → Nat :=
  let idx1 := if i < l.length - 1 then upd2 idx viewer (l.getD (l.length - 1) "") (i + 1) else idx
  fun a c => if a = viewer ∧ c = cid then 0 else idx1 a c

/-- `revokeItemAccess(_cid, _viewer)` from `Upload.sol`, including the
swap-and-pop removal from the viewer's shared list and the side-index
maintenance. -/
def revokeItemAccess (s : UploadState) (caller : Addr) (cid : String) (viewer : Addr) :
    Except LedgerError UploadState :=
  if s.cidExists cid = false then .error .itemNotFound
  else if (s.cidToRecord cid).owner ≠ caller then .error .notOwnerRevoke
  else if s.itemAccess cid viewer = false then .error .notGranted
  else
    let indexToRemove := s.sharedWithUserIndex viewer cid
    if indexToRemove = 0 then .error .indexMissing
    else
      let i := indexToRemove - 1
      let sharedList := s.sharedWithUserCIDs viewer
      if sharedList.length ≤ i then .error .indexOutOfBounds
      else
        .ok { s with
          itemAccess := upd2 s.itemAccess cid viewer false,
          sharedWithUserCIDs := upd s.sharedWithUserCIDs viewer (swapPop sharedList i),
          sharedWithUserIndex := popIndex s.sharedWithUserIndex viewer cid sharedList i }

/-- The loop over `sharedWithUserCIDs[caller]` in
`getAccessibleCIDsAndHashes`: keep entries whose access is still granted
and whose owner is not the caller, with the source's capacity guard. -/
def accessibleShared (s : UploadState) (caller : Addr) (maxCapacity : Nat) :
    List String → List (String × String × Addr) → List (String × String × Addr)
  | [], acc => acc
  | cid :: rest, acc =>
    if s.itemAccess cid caller = true ∧ (s.cidToRecord cid).owner ≠ caller then
      if acc.length < maxCapacity then
        accessibleShared s caller maxCapacity rest
          (acc ++ [(cid, (s.cidToRecord cid).imageHash, (s.cidToRecord cid).owner)])
      else acc
    else accessibleShared s caller maxCapacity rest acc

/-- `getAccessibleCIDsAndHashes()` from `Upload.sol`: the caller's owned
records first, then the still-accessible shared ones, as
`(cid, hash, owner)` triples. -/
def getAccessibleCIDsAndHashes (s : UploadState) (caller : Addr) :
    List (String × String × Addr) :=
  let owned := (s.userOwnedCIDs caller).map
    (fun cid => (cid, (s.cidToRecord cid).imageHash, (s.cidToRecord cid).owner))
  accessibleShared s caller
    ((s.userOwnedCIDs caller).length + (s.sharedWithUserCIDs caller).length)
    (s.sharedWithUserCIDs caller) owned

/-- The CIDs returned by `getAccessibleCIDsAndHashes`. -/
def accessibleCids (s : UploadState) (caller : Addr) : List String :=
  (getAccessibleCIDsAndHashes s caller).map (·.1)

/-- `checkItemAccess(_cid, _viewer)` from `Upload.sol`. -/
def checkItemAccess (s : UploadState) (cid : String) (viewer : Addr) : Bool :=
  if s.cidExists cid = false then false
  else if (s.cidToRecord cid).owner = viewer then true
  else s.itemAccess cid viewer

/-- States reachable from deployment by successful contract calls. -/
inductive Reachable : UploadState → Prop where
  | init : Reachable initialState
  | add {s s' : UploadState} {caller : Addr} {cid hash : String} {ts : Nat} :
      Reachable s → add s caller cid hash ts = .ok s' → Reachable s'
  | grant {s s' : UploadState} {caller : Addr} {cid : String} {viewer : Addr} :
      Reachable s → grantItemAccess s caller cid viewer = .ok s' → Reachable s'
  | revoke {s s' : UploadState} {caller : Addr} {cid : String} {viewer : Addr} :
      Reachable s → revokeItemAccess s caller cid viewer = .ok s' → Reachable s'

/-- Coherence of `sharedWithUserIndex` with `sharedWithUserCIDs` for one
`(viewer, cid)` pair: `0` means absent, `i + 1` means stored at slot `i`. -/
def PosOK (s : UploadState) (v : Addr) (cid : String) : Prop :=
  (s.sharedWithUserIndex v cid = 0 → cid ∉ s.sharedWithUserCIDs v) ∧
  (∀ i, s.sharedWithUserIndex v cid = i + 1 → (s.sharedWithUserCIDs v)[i]? = some cid)

/-- The contract-state invariant maintained by every `Upload.sol` call. -/
structure Inv (s : UploadState) : Prop where
  cid_ne : ∀ cid, s.cidExists cid = true → cid ≠ ""
  owned_exists : ∀ u cid, cid ∈ s.userOwnedCIDs u →
    s.cidExists cid = true ∧ (s.cidToRecord cid).owner = u
  owned_nodup : ∀ u, (s.userOwnedCIDs u).Nodup
  access_exists : ∀ cid v, s.itemAccess cid v = true →
    s.cidExists cid = true ∧ (s.cidToRecord cid).owner ≠ v
  shared_iff : ∀ v cid, cid ∈ s.sharedWithUserCIDs v ↔ s.itemAccess cid v = true
  shared_nodup : ∀ v, (s.sharedWithUserCIDs v).Nodup
  pos_ok : ∀ v cid, PosOK s v cid

/-- The state after owner `1` adds record `"cid1"`. -/
def s1ex : UploadState :=
  match add initialState 1 "cid1" "h1" 0 with
  | .ok s => s
  | .error _ => initialState

/-- The state after owner `1` additionally grants viewer `2` access to
`"cid1"`. -/
def s2ex : UploadState :=
  match grantItemAccess s1ex 1 "cid1" 2 with
  | .ok s => s
  | .error _ => s1ex


end Upload

namespace Hashing

/-- 2^32, the word modulus of SHA-256. -/
def wordMod : Nat := 4294967296

/-- 32-bit right rotation. -/
def rotr (n x : Nat) : Nat := ((x >>> n) ||| (x <<< (32 - n))) % wordMod

/-- 32-bit addition. -/
def add32 (a b : Nat) : Nat := (a + b) % wordMod

/-- 32-bit complement. -/
def not32 (x : Nat) : Nat := x ^^^ 4294967295

/-- SHA-256 choice function. -/
def ch (x y z : Nat) : Nat := (x &&& y) ^^^ (not32 x &&& z)

/-- SHA-256 majority function. -/
def maj (x y z : Nat) : Nat := (x &&& y) ^^^ (x &&& z) ^^^ (y &&& z)

/-- SHA-256 big sigma-0. -/
def bigSigma0 (x : Nat) : Nat := rotr 2 x ^^^ rotr 13 x ^^^ rotr 22 x

/-- SHA-256 big sigma-1. -/
def bigSigma1 (x : Nat) : Nat := rotr 6 x ^^^ rotr 11 x ^^^ rotr 25 x

/-- SHA-256 small sigma-0. -/
def smallSigma0 (x : Nat) : Nat := rotr 7 x ^^^ rotr 18 x ^^^ (x >>> 3)

/-- SHA-256 small sigma-1. -/
def smallSigma1 (x : Nat) : Nat := rotr 17 x ^^^ rotr 19 x ^^^ (x >>> 10)

/-- The 64 SHA-256 round constants of FIPS 180-4, written in decimal. -/
def K : List Nat :=
  [1116352408, 1899447441, 3049323471, 3921009573, 961987163,
   1508970993, 2453635748, 2870763221, 3624381080, 310598401,
   607225278, 1426881987, 1925078388, 2162078206, 2614888103,
   3248222580, 3835390401, 4022224774, 264347078, 604807628,
   770255983, 1249150122, 1555081692, 1996064986, 2554220882,
   2821834349, 2952996808, 3210313671, 3336571891, 3584528711,
   113926993, 338241895, 666307205, 773529912, 1294757372,
   1396182291, 1695183700, 1986661051, 2177026350, 2456956037,
   2730485921, 2820302411, 3259730800, 3345764771, 3516065817,
   3600352804, 4094571909, 275423344, 430227734, 506948616,
   659060556, 883997877, 958139571, 1322822218, 1537002063,
   1747873779, 1955562222, 2024104815, 2227730452, 2361852424,
   2428436474, 2756734187, 3204031479, 3329325298]

/-- Working state of the compression function. -/
structure Words8 where
  w0 : Nat
  w1 : Nat
  w2 : Nat
  w3 : Nat
  w4 : Nat
  w5 : Nat
  w6 : Nat
  w7 : Nat
  deriving DecidableEq, Repr

/-- The SHA-256 initial hash value of FIPS 180-4, written in decimal. -/
def initHash : Words8 :=
  ⟨1779033703, 3144134277, 1013904242, 2773480762,
   1359893119, 2600822924, 528734635, 1541459225⟩

/-- `n` bytes of `v`, big-endian. -/
def beBytes : Nat → Nat → List Nat
  | 0, _ => []
  | n + 1, v => beBytes n (v / 256) ++ [v % 256]

/-- Group a byte stream into 32-bit big-endian words. -/
def toWords : List Nat → List Nat
  | a :: b :: c :: d :: rest => (((a * 256 + b) * 256 + c) * 256 + d) :: toWords rest
  | _ => []

/-- SHA-256 message padding: append `0x80`, zero bytes up to 56 mod 64,
then the bit length as eight big-endian bytes. -/
def padMessage (msg : List Nat) : List Nat :=
  let L := msg.length
  let zeros := (64 + 56 - ((L + 1) % 64)) % 64
  msg ++ [0x80] ++ List.replicate zeros 0 ++ beBytes 8 (L * 8)

/-- Extend the 16 chunk words to the 64-entry message schedule
(`n` is the number of words still to append). -/
def extendSchedule : Nat → List Nat → List Nat
  | 0, ws => ws
  | n + 1, ws =>
    let i := ws.length
    let w := add32 (add32 (smallSigma1 (ws.getD (i - 2) 0)) (ws.getD (i - 7) 0))
                   (add32 (smallSigma0 (ws.getD (i - 15) 0)) (ws.getD (i - 16) 0))
    extendSchedule n (ws ++ [w])

/-- One compression round, consuming a `(K[t], W[t])` pair. -/
def compressRound (st : Words8) (kw : Nat × Nat) : Words8 :=
  let t1 := add32 st.w7 (add32 (bigSigma1 st.w4) (add32 (ch st.w4 st.w5 st.w6) (add32 kw.1 kw.2)))
  let t2 := add32 (bigSigma0 st.w0) (maj st.w0 st.w1 st.w2)
  ⟨add32 t1 t2, st.w0, st.w1, st.w2, add32 st.w3 t1, st.w4, st.w5, st.w6⟩

/-- Process one 64-byte chunk. -/
def processChunk (st : Words8) (chunk : List Nat) : Words8 :=
  let ws := extendSchedule 48 (toWords chunk)
  let f := (K.zip ws).foldl compressRound st
  ⟨add32 st.w0 f.w0, add32 st.w1 f.w1, add32 st.w2 f.w2, add32 st.w3 f.w3,
   add32 st.w4 f.w4, add32 st.w5 f.w5, add32 st.w6 f.w6, add32 st.w7 f.w7⟩

/-- Split a byte stream into 64-byte chunks. -/
def chunks (l : List Nat) : List (List Nat) :=
  if h : 0 < l.length then l.take 64 :: chunks (l.drop 64) else []
termination_by l.length
decreasing_by
  simp only [List.length_drop]
  exact Nat.sub_lt h (by norm_num)

/-- The SHA-256 digest of a byte stream, as 32 bytes. -/
def sha256Bytes (msg : List Nat) : List Nat :=
  let st := (chunks (padMessage msg)).foldl processChunk initHash
  beBytes 4 st.w0 ++ beBytes 4 st.w1 ++ beBytes 4 st.w2 ++ beBytes 4 st.w3 ++
  beBytes 4 st.w4 ++ beBytes 4 st.w5 ++ beBytes 4 st.w6 ++ beBytes 4 st.w7

/-- `b.toString(16).padStart(2, "0")`: lowercase hex, left-padded to two
characters. -/
def byteHexPad (b : Nat) : String :=
  let s := (Nat.toDigits 16 b).asString
  if s.length < 2 then "0" ++ s else s

/-- `hashArray.map(...).join("")`. -/
def concatHex : List Nat → String
  | [] => ""
  | b :: rest => byteHexPad b ++ concatHex rest

/-- The lowercase-hex SHA-256 digest: the composition
`crypto.subtle.digest` + byte-to-hex rendering used by both
`calculateFileHash` and `calculateArrayBufferHash`. -/
def hashHex (msg : List Nat) : String := concatHex (sha256Bytes msg)

/-- `calculateArrayBufferHash` throws on an empty buffer. -/
inductive HashError where
  | emptyBuffer
  deriving DecidableEq, Repr

/-- `calculateArrayBufferHash(buffer)` from `Display.js`: reject an empty
buffer, otherwise digest and render as lowercase hex. -/
def calculateArrayBufferHash (buffer : List Nat) : Except HashError String :=
  if buffer.length = 0 then .error .emptyBuffer
  else .ok (hashHex buffer)

/-- Verdict of `verifyHash` (the transient `verifying` state is not a
final verdict and is omitted). -/
inductive VerificationStatus where
  | verified
  | mismatch
  | error
  deriving DecidableEq, Repr

/-- `verifyHash(imageUrl, expectedHash, itemId)` from `Display.js`, with
the fetch modelled as returning the bytes `content`: missing expected
hash or an empty fetched payload give `error`, otherwise the recomputed
digest is compared case-insensitively with the expected fingerprint. -/
def verifyHash (content : List Nat) (expectedHash : String) : VerificationStatus :=
  if expectedHash = "" then .error
  else if content.length = 0 then .error
  else
    match calculateArrayBufferHash content with
    | .error _ => .error
    | .ok calculatedHash =>
      if calculatedHash.toLower = expectedHash.toLower then .verified else .mismatch

end Hashing

namespace Submit

open Consensus Upload

/-- The externally visible side effects of `handleSubmit` after the
consensus step: the Pinata IPFS pin (step 7) and the `contract.add`
transaction (step 8). -/
inductive SubmitEffect where
  | ipfsPin
  | contractAdd
  deriving DecidableEq, Repr

/-- Steps 4–8 of `handleSubmit` in `FileUpload.js`: determine consensus,
return immediately (no pin, no ledger call) on `deepfake` or
`inconclusive`, otherwise pin to IPFS and submit `contract.add`.
Returns the resulting ledger state and the effects performed, in order;
a reverting `add` still leaves the pin performed. -/
def handleSubmit (s : UploadState) (caller : Addr) (results : List NodeResult)
    (cid hash : String) (ts : Nat) : UploadState × List SubmitEffect :=
  let outcome := determineConsensus CONSENSUS_THRESHOLD results
  match outcome.consensus with
  | .deepfake => (s, [])
  | .inconclusive => (s, [])
  | .real =>
    match Upload.add s caller cid hash ts with
    | .ok s' => (s', [.ipfsPin, .contractAdd])
    | .error _ => (s, [.ipfsPin])

end Submit

namespace Consensus

theorem tally_realVotes_eq (results : List NodeResult) :
    (tally results).realVotes = (validRealConfs results).length ∧
    (tally results).fakeVotes = (validFakeConfs results).length ∧
    (tally results).totalConfidenceReal = (validRealConfs results).sum ∧
    (tally results).totalConfidenceFake = (validFakeConfs results).sum := by
  suffices h : ∀ (rs : List NodeResult) (t : Tally),
      (rs.foldl tallyStep t).realVotes = t.realVotes + (validRealConfs rs).length ∧
      (rs.foldl tallyStep t).fakeVotes = t.fakeVotes + (validFakeConfs rs).length ∧
      (rs.foldl tallyStep t).totalConfidenceReal = t.totalConfidenceReal + (validRealConfs rs).sum ∧
      (rs.foldl tallyStep t).totalConfidenceFake = t.totalConfidenceFake + (validFakeConfs rs).sum by
    have := h results ⟨0, 0, 0, 0⟩
    simpa [tally] using this
  intro rs
  induction rs with
  | nil => intro t; simp [validRealConfs, validFakeConfs]
  | cons r rs ih =>
    intro t
    by_cases hv : validVote r
    · have hnot : ¬ (r.confidence < 0 ∨ 1 < r.confidence) := by
        rcases hv with ⟨h0, h1⟩
        push_neg
        exact ⟨h0, h1⟩
      by_cases hd : r.is_deepfake
      · simp only [List.foldl_cons, tallyStep, if_neg hnot, hd, if_pos]
        have := ih { t with fakeVotes := t.fakeVotes + 1,
                            totalConfidenceFake := t.totalConfidenceFake + r.confidence }
        refine ⟨?_, ?_, ?_, ?_⟩ <;>
          simp [this.1, this.2.1, this.2.2.1, this.2.2.2, validRealConfs, validFakeConfs,
            hv, hd] <;> ring
      · simp only [List.foldl_cons, tallyStep, if_neg hnot, hd, if_neg, Bool.false_eq_true,
          not_false_iff]
        have := ih { t with realVotes := t.realVotes + 1,
                            totalConfidenceReal := t.totalConfidenceReal + r.confidence }
        refine ⟨?_, ?_, ?_, ?_⟩ <;>
          simp [this.1, this.2.1, this.2.2.1, this.2.2.2, validRealConfs, validFakeConfs,
            hv, hd] <;> ring
    · have hyes : r.confidence < 0 ∨ 1 < r.confidence := by
        unfold validVote at hv
        push_neg at hv
        by_cases h0 : 0 ≤ r.confidence
        · exact Or.inr (hv h0)
        · exact Or.inl (lt_of_not_le h0)
      simp only [List.foldl_cons, tallyStep, if_pos hyes]
      have := ih t
      refine ⟨?_, ?_, ?_, ?_⟩ <;>
        simp [this.1, this.2.1, this.2.2.1, this.2.2.2, validRealConfs, validFakeConfs, hv]

end Consensus

namespace Upload

@[simp]
theorem upd_same {α β : Type} [DecidableEq α] (m : α → β) (k : α) (v : β) :
    upd m k v k = v := by
  simp [upd]

theorem upd_ne {α β : Type} [DecidableEq α] (m : α → β) (k : α) (v : β)
    {x : α} (h : x ≠ k) : upd m k v x = m x := by
  simp [upd, h]

@[simp]
theorem upd2_same {α β γ : Type} [DecidableEq α] [DecidableEq β]
    (m : α → β → γ) (k1 : α) (k2 : β) (v : γ) : upd2 m k1 k2 v k1 k2 = v := by
  simp [upd2]

theorem upd2_ne {α β γ : Type} [DecidableEq α] [DecidableEq β]
    (m : α → β → γ) (k1 : α) (k2 : β) (v : γ) {a : α} {b : β}
    (h : ¬(a = k1 ∧ b = k2)) : upd2 m k1 k2 v a b = m a b := by
  simp [upd2, h]

/-- Successful-`add` inversion: the preconditions held and the new state
is the recorded one. -/
theorem add_ok_inv {s s' : UploadState} {caller : Addr} {cid hash : String} {ts : Nat}
    (h : add s caller cid hash ts = .ok s') :
    cid ≠ "" ∧ hash ≠ "" ∧ s.cidExists cid = false ∧
    s' = { s with
      cidToRecord := upd s.cidToRecord cid ⟨cid, hash, caller, ts⟩,
      userOwnedCIDs := upd s.userOwnedCIDs caller (s.userOwnedCIDs caller ++ [cid]),
      cidExists := upd s.cidExists cid true } := by
  unfold add at h
  split_ifs at h with h1 h2 h3
  · exact ⟨h1, h2, by simpa using h3, by injection h with h; exact h.symm⟩

/-- Successful-`grantItemAccess` inversion. -/
theorem grant_ok_inv {s s' : UploadState} {caller : Addr} {cid : String} {viewer : Addr}
    (h : grantItemAccess s caller cid viewer = .ok s') :
    s.cidExists cid = true ∧ viewer ≠ 0 ∧ (s.cidToRecord cid).owner = caller ∧
    viewer ≠ caller ∧ s.itemAccess cid viewer = false ∧
    s' = { s with
      itemAccess := upd2 s.itemAccess cid viewer true,
      sharedWithUserIndex :=
        upd2 s.sharedWithUserIndex viewer cid ((s.sharedWithUserCIDs viewer).length + 1),
      sharedWithUserCIDs :=
        upd s.sharedWithUserCIDs viewer (s.sharedWithUserCIDs viewer ++ [cid]) } := by
  unfold grantItemAccess at h
  split_ifs at h with h1 h2 h3 h4 h5
  · refine ⟨?_, h2, not_not.mp h3, h4, by simpa using h5, by injection h with h; exact h.symm⟩
    simpa using h1

/-- Successful-`revokeItemAccess` inversion. -/
theorem revoke_ok_inv {s s' : UploadState} {caller : Addr} {cid : String} {viewer : Addr}
    (h : revokeItemAccess s caller cid viewer = .ok s') :
    s.cidExists cid = true ∧ (s.cidToRecord cid).owner = caller ∧
    s.itemAccess cid viewer = true ∧
    s.sharedWithUserIndex viewer cid ≠ 0 ∧
    s.sharedWithUserIndex viewer cid - 1 < (s.sharedWithUserCIDs viewer).length ∧
    s' = { s with
      itemAccess := upd2 s.itemAccess cid viewer false,
      sharedWithUserCIDs := upd s.sharedWithUserCIDs viewer
        (swapPop (s.sharedWithUserCIDs viewer) (s.sharedWithUserIndex viewer cid - 1)),
      sharedWithUserIndex := popIndex s.sharedWithUserIndex viewer cid
        (s.sharedWithUserCIDs viewer) (s.sharedWithUserIndex viewer cid - 1) } := by
  unfold revokeItemAccess at h
  split_ifs at h with h1 h2 h3
  simp only [] at h
  split_ifs at h with h4 h5
  exact ⟨by simpa using h1, not_not.mp h2, by simpa using h3, h4,
    Nat.lt_of_not_le h5, by injection h with h; exact h.symm⟩

theorem swapPop_length {l : List String} {i : Nat} (hi : i < l.length) :
    (swapPop l i).length = l.length - 1 := by
  unfold swapPop
  split_ifs <;> simp

/-- Position-by-position description of the swap-and-pop removal. -/
theorem swapPop_getElem? {l : List String} {i : Nat} (hi : i < l.length) (j : Nat) :
    (swapPop l i)[j]? =
      if j + 1 < l.length then
        (if j = i then some (l.getD (l.length - 1) "") else l[j]?)
      else none := by
  unfold swapPop
  by_cases hA : i < l.length - 1
  · rw [if_pos hA, List.getElem?_dropLast, List.length_set, List.getElem?_set]
    split_ifs <;> first | rfl | omega
  · rw [if_neg hA, List.getElem?_dropLast]
    split_ifs <;> first | rfl | omega

/-- Membership in the swap-popped list: exactly the old elements other
than the removed one (requires the list to be duplicate-free and the
removed position to actually hold the removed element). -/
theorem swapPop_mem {l : List String} {i : Nat} {cid : String}
    (hnd : l.Nodup) (hi : l[i]? = some cid) (x : String) :
    x ∈ swapPop l i ↔ (x ∈ l ∧ x ≠ cid) := by
  have hilt : i < l.length := (List.getElem?_eq_some.mp hi).1
  have hinj : ∀ {a b : Nat}, a < l.length → b < l.length → l[a]? = l[b]? → a = b := by
    intro a b ha hb hab
    rw [List.getElem?_eq_getElem ha, List.getElem?_eq_getElem hb] at hab
    exact (hnd.getElem_inj_iff).mp (by injection hab)
  obtain ⟨last, hlast⟩ : ∃ v, l[l.length - 1]? = some v := by
    rw [List.getElem?_eq_getElem (show l.length - 1 < l.length by omega)]
    exact ⟨_, rfl⟩
  have hgetD : l.getD (l.length - 1) "" = last := by
    rw [List.getD_eq_getElem?_getD, hlast]
    rfl
  constructor
  · intro hx
    obtain ⟨j, hj⟩ := List.mem_iff_getElem?.mp hx
    rw [swapPop_getElem? hilt j] at hj
    by_cases hjl : j + 1 < l.length
    · rw [if_pos hjl] at hj
      by_cases hji : j = i
      · rw [if_pos hji, hgetD] at hj
        injection hj with hj
        subst hj
        refine ⟨List.mem_iff_getElem?.mpr ⟨l.length - 1, hlast⟩, ?_⟩
        intro hxc
        have : l.length - 1 = i := hinj (by omega) hilt (by rw [hlast, hxc, ← hi])
        omega
      · rw [if_neg hji] at hj
        refine ⟨List.mem_iff_getElem?.mpr ⟨j, hj⟩, ?_⟩
        intro hxc
        subst hxc
        exact hji (hinj (by omega) hilt (by rw [hj, ← hi]))
    · rw [if_neg hjl] at hj
      simp at hj
  · rintro ⟨hx, hxcid⟩
    obtain ⟨j, hj⟩ := List.mem_iff_getElem?.mp hx
    have hjlt : j < l.length := (List.getElem?_eq_some.mp hj).1
    have hji : j ≠ i := by
      intro h
      subst h
      rw [hj] at hi
      injection hi with hi
      exact hxcid hi
    refine List.mem_iff_getElem?.mpr ?_
    by_cases hjl : j + 1 < l.length
    · exact ⟨j, by rw [swapPop_getElem? hilt j, if_pos hjl, if_neg hji]; exact hj⟩
    · have hj_last : j = l.length - 1 := by omega
      refine ⟨i, ?_⟩
      rw [swapPop_getElem? hilt i, if_pos (by omega), if_pos rfl, hgetD]
      rw [hj_last] at hj
      exact hlast.symm.trans hj

/-- Swap-and-pop preserves freedom from duplicates. -/
theorem swapPop_nodup {l : List String} {i : Nat} (hnd : l.Nodup) (hilt : i < l.length) :
    (swapPop l i).Nodup := by
  have hinj : ∀ {a b : Nat}, a < l.length → b < l.length → l[a]? = l[b]? → a = b := by
    intro a b ha hb hab
    rw [List.getElem?_eq_getElem ha, List.getElem?_eq_getElem hb] at hab
    exact (hnd.getElem_inj_iff).mp (by injection hab)
  obtain ⟨last, hlast⟩ : ∃ v, l[l.length - 1]? = some v := by
    rw [List.getElem?_eq_getElem (show l.length - 1 < l.length by omega)]
    exact ⟨_, rfl⟩
  have hgetD : l.getD (l.length - 1) "" = last := by
    rw [List.getD_eq_getElem?_getD, hlast]
    rfl
  rw [List.nodup_iff_getElem?_ne_getElem?]
  intro a b hab hblen heq
  rw [swapPop_length hilt] at hblen
  have ha1 : a + 1 < l.length := by omega
  have hb1 : b + 1 < l.length := by omega
  rw [swapPop_getElem? hilt a, swapPop_getElem? hilt b, if_pos ha1, if_pos hb1, hgetD] at heq
  by_cases hai : a = i <;> by_cases hbi : b = i
  · omega
  · rw [if_pos hai, if_neg hbi] at heq
    have : l.length - 1 = b := hinj (by omega) (by omega) (by rw [hlast, heq])
    omega
  · rw [if_neg hai, if_pos hbi] at heq
    have : a = l.length - 1 := hinj (by omega) (by omega) (by rw [heq, ← hlast])
    omega
  · rw [if_neg hai, if_neg hbi] at heq
    have := hinj (by omega) (by omega) heq
    omega


end Upload

namespace Upload

theorem inv_init : Inv initialState := by
  constructor <;> simp [initialState, PosOK]

theorem inv_add {s s' : UploadState} {caller : Addr} {cid hash : String} {ts : Nat}
    (hinv : Inv s) (h : add s caller cid hash ts = .ok s') : Inv s' := by
  obtain ⟨hcid, hhash, hex, rfl⟩ := add_ok_inv h
  constructor
  all_goals dsimp only
  · intro c hc
    by_cases hccid : c = cid
    · subst hccid; exact hcid
    · exact hinv.cid_ne c (by rwa [upd_ne _ _ _ hccid] at hc)
  · intro u c hc
    by_cases hccid : c = cid
    · subst hccid
      have hu : u = caller := by
        by_contra hne
        have : c ∈ s.userOwnedCIDs u := by
          simpa [upd_ne _ _ _ (fun h => hne h)] using hc
        exact absurd (hinv.owned_exists u c this).1 (by simp [hex])
      subst hu
      simp [upd]
    · have hold : c ∈ s.userOwnedCIDs u := by
        by_cases hu : u = caller
        · subst hu
          simp only [upd_same] at hc
          rcases List.mem_append.mp hc with h1 | h1
          · exact h1
          · simp at h1; exact absurd h1 hccid
        · rwa [upd_ne _ _ _ hu] at hc
      obtain ⟨he, ho⟩ := hinv.owned_exists u c hold
      exact ⟨by rwa [upd_ne _ _ _ hccid], by rwa [upd_ne _ _ _ hccid]⟩
  · intro u
    by_cases hu : u = caller
    · subst hu
      simp only [upd_same]
      rw [List.nodup_append]
      refine ⟨hinv.owned_nodup _, List.nodup_singleton cid, ?_⟩
      intro c hc hc1
      simp at hc1
      subst hc1
      exact absurd (hinv.owned_exists _ c hc).1 (by simp [hex])
    · rw [upd_ne _ _ _ hu]
      exact hinv.owned_nodup u
  · intro c v hc
    obtain ⟨he, ho⟩ := hinv.access_exists c v hc
    have hccid : c ≠ cid := fun heq => by rw [heq, hex] at he; cases he
    exact ⟨by rwa [upd_ne _ _ _ hccid], by rwa [upd_ne _ _ _ hccid]⟩
  · exact hinv.shared_iff
  · exact hinv.shared_nodup
  · exact hinv.pos_ok

theorem inv_grant {s s' : UploadState} {caller : Addr} {cid : String} {viewer : Addr}
    (hinv : Inv s) (h : grantItemAccess s caller cid viewer = .ok s') : Inv s' := by
  obtain ⟨hex, hv0, howner, hvc, hacc, rfl⟩ := grant_ok_inv h
  have hnotmem : cid ∉ s.sharedWithUserCIDs viewer := fun hm =>
    by rw [(hinv.shared_iff viewer cid).mp hm] at hacc; cases hacc
  constructor
  all_goals dsimp only
  · exact hinv.cid_ne
  · exact hinv.owned_exists
  · exact hinv.owned_nodup
  · intro c v hc
    by_cases hk : c = cid ∧ v = viewer
    · obtain ⟨rfl, rfl⟩ := hk
      exact ⟨hex, by rw [howner]; exact fun h => hvc h.symm⟩
    · exact hinv.access_exists c v (by rwa [upd2_ne _ _ _ _ hk] at hc)
  · intro v c
    by_cases hv : v = viewer
    · subst hv
      simp only [upd_same]
      by_cases hccid : c = cid
      · subst hccid
        simp [upd2]
      · rw [upd2_ne _ _ _ _ (fun hk => hccid hk.1), List.mem_append]
        simp only [List.mem_singleton, hccid, or_false]
        exact hinv.shared_iff v c
    · rw [upd_ne _ _ _ hv, upd2_ne _ _ _ _ (fun hk => hv hk.2)]
      exact hinv.shared_iff v c
  · intro v
    by_cases hv : v = viewer
    · subst hv
      simp only [upd_same]
      rw [List.nodup_append]
      exact ⟨hinv.shared_nodup v, List.nodup_singleton cid,
        fun c hc hc1 => by simp at hc1; subst hc1; exact hnotmem hc⟩
    · rw [upd_ne _ _ _ hv]
      exact hinv.shared_nodup v
  · intro v c
    unfold PosOK
    dsimp only
    by_cases hv : v = viewer
    · subst hv
      by_cases hccid : c = cid
      · subst hccid
        refine ⟨?_, ?_⟩
        · intro h0
          rw [upd2_same] at h0
          cases h0
        · intro i hi
          rw [upd2_same] at hi
          have : i = (s.sharedWithUserCIDs v).length := by omega
          subst this
          simp [List.getElem?_concat_length]
      · have hkey : ¬(v = v ∧ c = cid) := fun hk => hccid hk.2
        refine ⟨?_, ?_⟩
        · intro h0
          rw [upd2_ne _ _ _ _ hkey] at h0
          have := (hinv.pos_ok v c).1 h0
          simp only [upd_same, List.mem_append, List.mem_singleton]
          exact fun hor => hor.elim this hccid
        · intro i hi
          rw [upd2_ne _ _ _ _ hkey] at hi
          have := (hinv.pos_ok v c).2 i hi
          have hlt : i < (s.sharedWithUserCIDs v).length := (List.getElem?_eq_some.mp this).1
          simp only [upd_same]
          rw [List.getElem?_append, if_pos hlt]
          exact this
    · have hkey : ¬(v = viewer ∧ c = cid) := fun hk => hv hk.1
      simp only [upd_ne _ _ _ hv, upd2_ne _ _ _ _ hkey]
      exact hinv.pos_ok v c

end Upload

namespace Upload

theorem inv_revoke {s s' : UploadState} {caller : Addr} {cid : String} {viewer : Addr}
    (hinv : Inv s) (h : revokeItemAccess s caller cid viewer = .ok s') : Inv s' := by
  obtain ⟨hex, howner, hacc, hidx, hlen, rfl⟩ := revoke_ok_inv h
  set l := s.sharedWithUserCIDs viewer with hldef
  set i := s.sharedWithUserIndex viewer cid - 1 with hidef
  have hpos : l[i]? = some cid := (hinv.pos_ok viewer cid).2 i (by omega)
  have hnd : l.Nodup := hinv.shared_nodup viewer
  have hilt : i < l.length := hlen
  obtain ⟨last, hlast⟩ : ∃ v, l[l.length - 1]? = some v := by
    rw [List.getElem?_eq_getElem (show l.length - 1 < l.length by omega)]
    exact ⟨_, rfl⟩
  have hgetD : l.getD (l.length - 1) "" = last := by
    rw [List.getD_eq_getElem?_getD, hlast]
    rfl
  constructor
  all_goals dsimp only
  · exact hinv.cid_ne
  · exact hinv.owned_exists
  · exact hinv.owned_nodup
  · intro c v hc
    by_cases hk : c = cid ∧ v = viewer
    · rw [hk.1, hk.2, upd2_same] at hc
      cases hc
    · exact hinv.access_exists c v (by rwa [upd2_ne _ _ _ _ hk] at hc)
  · intro v c
    by_cases hv : v = viewer
    · subst hv
      rw [upd_same]
      by_cases hccid : c = cid
      · subst hccid
        rw [swapPop_mem hnd hpos, upd2_same]
        simp
      · rw [swapPop_mem hnd hpos, upd2_ne _ _ _ _ (fun hk2 => hccid hk2.1)]
        constructor
        · rintro ⟨hcl, _⟩
          exact (hinv.shared_iff _ c).mp hcl
        · intro hca
          exact ⟨(hinv.shared_iff _ c).mpr hca, hccid⟩
    · rw [upd_ne _ _ _ hv, upd2_ne _ _ _ _ (fun hk2 => hv hk2.2)]
      exact hinv.shared_iff v c
  · intro v
    by_cases hv : v = viewer
    · subst hv
      rw [upd_same]
      exact swapPop_nodup hnd hilt
    · rw [upd_ne _ _ _ hv]
      exact hinv.shared_nodup v
  · intro v c
    unfold PosOK popIndex
    dsimp only
    by_cases hv : v = viewer
    · subst hv
      by_cases hccid : c = cid
      · subst hccid
        rw [if_pos ⟨rfl, rfl⟩, upd_same]
        refine ⟨fun _ => ?_, fun j hj => absurd hj (by omega)⟩
        rw [swapPop_mem hnd hpos]
        simp
      · rw [if_neg (fun hk2 => hccid hk2.2), upd_same]
        by_cases hA : i < l.length - 1
        · rw [if_pos hA, hgetD]
          by_cases hclast : c = last
          · subst hclast
            rw [upd2_same]
            refine ⟨fun h0 => absurd h0 (by omega), fun j hj => ?_⟩
            have hji : j = i := by omega
            subst hji
            rw [swapPop_getElem? hilt i, if_pos (by omega), if_pos rfl, hgetD]
          · rw [upd2_ne _ _ _ _ (fun hk2 => hclast hk2.2)]
            refine ⟨fun h0 => ?_, fun j hj => ?_⟩
            · have hnotin := (hinv.pos_ok _ c).1 h0
              rw [swapPop_mem hnd hpos]
              rintro ⟨hcl, _⟩
              exact hnotin hcl
            · have hjv := (hinv.pos_ok _ c).2 j hj
              have hjlt : j < l.length := (List.getElem?_eq_some.mp hjv).1
              have hji : j ≠ i := by
                intro he
                rw [he, hpos] at hjv
                injection hjv with hj2
                exact hccid hj2.symm
              have hjlast : j ≠ l.length - 1 := by
                intro he
                rw [he, hlast] at hjv
                injection hjv with hj2
                exact hclast hj2.symm
              rw [swapPop_getElem? hilt j, if_pos (by omega), if_neg hji]
              exact hjv
        · rw [if_neg hA]
          refine ⟨fun h0 => ?_, fun j hj => ?_⟩
          · have hnotin := (hinv.pos_ok _ c).1 h0
            rw [swapPop_mem hnd hpos]
            rintro ⟨hcl, _⟩
            exact hnotin hcl
          · have hjv := (hinv.pos_ok _ c).2 j hj
            have hjlt : j < l.length := (List.getElem?_eq_some.mp hjv).1
            have hji : j ≠ i := by
              intro he
              rw [he, hpos] at hjv
              injection hjv with hj2
              exact hccid hj2.symm
            rw [swapPop_getElem? hilt j, if_pos (by omega), if_neg hji]
            exact hjv
    · rw [if_neg (fun hk2 => hv hk2.1), upd_ne _ _ _ hv]
      by_cases hA : i < l.length - 1
      · rw [if_pos hA, upd2_ne _ _ _ _ (fun hk2 => hv hk2.1)]
        exact hinv.pos_ok v c
      · rw [if_neg hA]
        exact hinv.pos_ok v c

/-- Every reachable contract state satisfies the invariant. -/
theorem reachable_inv {s : UploadState} (h : Reachable s) : Inv s := by
  induction h with
  | init => exact inv_init
  | add _ hstep ih => exact inv_add ih hstep
  | grant _ hstep ih => exact inv_grant ih hstep
  | revoke _ hstep ih => exact inv_revoke ih hstep

end Upload

namespace Consensus

theorem ratio_sum {results : List NodeResult} (h : totalVotes results ≠ 0) :
    realRatio results + fakeRatio results = 1 := by
  have htv : ((totalVotes results : ℚ)) ≠ 0 := by exact_mod_cast h
  unfold realRatio fakeRatio
  rw [div_add_div_same]
  have hcast : ((tally results).realVotes : ℚ) + ((tally results).fakeVotes : ℚ)
      = (totalVotes results : ℚ) := by
    unfold totalVotes
    push_cast
    ring
  rw [hcast, div_self htv]

theorem realRatio_nonneg (results : List NodeResult) : 0 ≤ realRatio results := by
  unfold realRatio
  positivity

theorem fakeRatio_nonneg (results : List NodeResult) : 0 ≤ fakeRatio results := by
  unfold fakeRatio
  positivity

theorem tie_ratio {results : List NodeResult}
    (h : (tally results).realVotes = (tally results).fakeVotes) :
    realRatio results = fakeRatio results := by
  unfold realRatio fakeRatio
  rw [h]

end Consensus

namespace Consensus

/-- Concrete evaluation of the spec's worked example under the source's
threshold: 2/3 real votes, decision `real`, reported confidence `85`
(the mean 0.85 rendered as a percentage). -/
theorem exampleVotes_eval :
    determineConsensus CONSENSUS_THRESHOLD exampleVotes =
      ⟨Verdict.real, some 85, some (2, 3)⟩ := by
  norm_num [determineConsensus, tally, tallyStep, exampleVotes, totalVotes, realRatio,
    fakeRatio, CONSENSUS_THRESHOLD]

/-- C1 (amended: threshold at least one half, as the code's default 0.5):
the decision is `real` exactly when the real-vote ratio strictly exceeds
the threshold, `deepfake` exactly when the fake-vote ratio does, and
`inconclusive` otherwise; zero valid votes and a perfect tie are always
`inconclusive`. -/
theorem consensus_decision_iff (threshold : ℚ) (hth : 1/2 ≤ threshold)
    (results : List NodeResult) :
    ((determineConsensus threshold results).consensus = Verdict.real ↔
      realRatio results > threshold) ∧
    ((determineConsensus threshold results).consensus = Verdict.deepfake ↔
      fakeRatio results > threshold) ∧
    ((determineConsensus threshold results).consensus = Verdict.inconclusive ↔
      ¬ realRatio results > threshold ∧ ¬ fakeRatio results > threshold) ∧
    (totalVotes results = 0 →
      (determineConsensus threshold results).consensus = Verdict.inconclusive) ∧
    ((tally results).realVotes = (tally results).fakeVotes →
      (determineConsensus threshold results).consensus = Verdict.inconclusive) := by
  have hpos : (0:ℚ) < threshold := by linarith
  have hzr : totalVotes results = 0 → realRatio results = 0 := by
    intro h
    unfold realRatio
    rw [h]
    simp
  have hzf : totalVotes results = 0 → fakeRatio results = 0 := by
    intro h
    unfold fakeRatio
    rw [h]
    simp
  unfold determineConsensus
  by_cases h0 : results.length = 0
  · have htv : totalVotes results = 0 := by
      have he : results = [] := List.length_eq_zero.mp h0
      subst he
      rfl
    rw [if_pos h0, hzr htv, hzf htv]
    dsimp only
    exact ⟨iff_of_false (by decide) (not_lt.mpr hpos.le),
      iff_of_false (by decide) (not_lt.mpr hpos.le),
      iff_of_true rfl ⟨not_lt.mpr hpos.le, not_lt.mpr hpos.le⟩,
      fun _ => rfl, fun _ => rfl⟩
  · rw [if_neg h0]
    by_cases htv : totalVotes results = 0
    · rw [if_pos htv, hzr htv, hzf htv]
      dsimp only
      exact ⟨iff_of_false (by decide) (not_lt.mpr hpos.le),
        iff_of_false (by decide) (not_lt.mpr hpos.le),
        iff_of_true rfl ⟨not_lt.mpr hpos.le, not_lt.mpr hpos.le⟩,
        fun _ => rfl, fun _ => rfl⟩
    · rw [if_neg htv]
      have hsum := ratio_sum htv
      by_cases hr : realRatio results > threshold
      · rw [if_pos hr]
        dsimp only
        have hnf : ¬ fakeRatio results > threshold := by
          intro hf
          simp only [gt_iff_lt] at hr hf
          linarith
        refine ⟨iff_of_true rfl hr, iff_of_false (by decide) hnf,
          iff_of_false (by decide) (fun hc => hc.1 hr), fun h => absurd h htv, ?_⟩
        intro hv
        exfalso
        rw [tie_ratio hv] at hr
        exact hnf hr
      · rw [if_neg hr]
        by_cases hf : fakeRatio results > threshold
        · rw [if_pos hf]
          dsimp only
          refine ⟨iff_of_false (by decide) hr, iff_of_true rfl hf,
            iff_of_false (by decide) (fun hc => hc.2 hf), fun h => absurd h htv, ?_⟩
          intro hv
          exfalso
          rw [← tie_ratio hv] at hf
          exact hr hf
        · rw [if_neg hf]
          dsimp only
          exact ⟨iff_of_false (by decide) hr, iff_of_false (by decide) hf,
            iff_of_true rfl ⟨hr, hf⟩, fun _ => rfl, fun _ => rfl⟩

/-- C1 witness: the characterisation at the default threshold 0.5 on the
spec's worked example. -/
theorem consensus_decision_iff_witness :
    (1/2 : ℚ) ≤ 1/2 ∧
    (((determineConsensus (1/2) exampleVotes).consensus = Verdict.real ↔
        realRatio exampleVotes > (1/2 : ℚ)) ∧
      ((determineConsensus (1/2) exampleVotes).consensus = Verdict.deepfake ↔
        fakeRatio exampleVotes > (1/2 : ℚ)) ∧
      ((determineConsensus (1/2) exampleVotes).consensus = Verdict.inconclusive ↔
        ¬ realRatio exampleVotes > (1/2 : ℚ) ∧ ¬ fakeRatio exampleVotes > (1/2 : ℚ)) ∧
      (totalVotes exampleVotes = 0 →
        (determineConsensus (1/2) exampleVotes).consensus = Verdict.inconclusive) ∧
      ((tally exampleVotes).realVotes = (tally exampleVotes).fakeVotes →
        (determineConsensus (1/2) exampleVotes).consensus = Verdict.inconclusive)) :=
  ⟨le_refl _, consensus_decision_iff (1/2) (le_refl _) exampleVotes⟩

/-- C1 counterexample: with votes {real, fake, fake} and threshold 1/5,
the fake ratio (2/3) strictly exceeds the threshold yet the decision is
`real`, not `deepfake` — the claim's "Rejected exactly when
fakeVotes/totalVotes > threshold" fails for thresholds below one half. -/
theorem oneRealTwoFake_eval :
    determineConsensus (1/5) oneRealTwoFake = ⟨Verdict.real, some 100, some (1, 3)⟩ := by
  norm_num [determineConsensus, tally, tallyStep, oneRealTwoFake, totalVotes,
    realRatio, fakeRatio]

theorem consensus_decision_counterexample :
    fakeRatio oneRealTwoFake > (1/5 : ℚ) ∧
    (determineConsensus (1/5) oneRealTwoFake).consensus ≠ Verdict.deepfake ∧
    (determineConsensus (1/5) oneRealTwoFake).consensus = Verdict.real := by
  refine ⟨by norm_num [fakeRatio, totalVotes, tally, tallyStep, oneRealTwoFake], ?_,
    by rw [oneRealTwoFake_eval]⟩
  rw [oneRealTwoFake_eval]
  simp

theorem determineConsensus_real_confidence {threshold : ℚ} {results : List NodeResult}
    (hr : (determineConsensus threshold results).consensus = Verdict.real) :
    (determineConsensus threshold results).confidence =
      some ((validRealConfs results).sum / ((validRealConfs results).length : ℚ) * 100) := by
  obtain ⟨h1, h2, h3, h4⟩ := tally_realVotes_eq results
  unfold determineConsensus at hr ⊢
  split_ifs at hr ⊢ with c1 c2 c3 c4
  all_goals first
  | (exfalso
     revert hr
     simp
     done)
  | (dsimp only
     rw [h3, h1])
  | (dsimp only
     have hz : (tally results).realVotes = 0 := by omega
     have hnil : validRealConfs results = [] := List.length_eq_zero.mp (by rw [← h1, hz])
     rw [hnil]
     simp)

theorem determineConsensus_fake_confidence {threshold : ℚ} {results : List NodeResult}
    (hr : (determineConsensus threshold results).consensus = Verdict.deepfake) :
    (determineConsensus threshold results).confidence =
      some ((validFakeConfs results).sum / ((validFakeConfs results).length : ℚ) * 100) := by
  obtain ⟨h1, h2, h3, h4⟩ := tally_realVotes_eq results
  unfold determineConsensus at hr ⊢
  split_ifs at hr ⊢ with c1 c2 c3 c4
  all_goals first
  | (exfalso
     revert hr
     simp
     done)
  | (dsimp only
     rw [h4, h2])
  | (dsimp only
     have hz : (tally results).fakeVotes = 0 := by omega
     have hnil : validFakeConfs results = [] := List.length_eq_zero.mp (by rw [← h2, hz])
     rw [hnil]
     simp)

/-- C7 (amended): when there is a winning side, the reported confidence
is 100 times the arithmetic mean of the confidences of exactly the valid
votes on the winning side (the mean expressed as a percentage); on the
spec's worked example the decision is `real` with reported confidence 85
(that is, mean 0.85 as a percentage), not 0.85. -/
theorem consensus_confidence_of_winner (threshold : ℚ) (results : List NodeResult)
    (h : (determineConsensus threshold results).consensus ≠ Verdict.inconclusive) :
    (determineConsensus threshold results).confidence =
      some ((winningConfs threshold results).sum /
        ((winningConfs threshold results).length : ℚ) * 100) ∧
    (determineConsensus CONSENSUS_THRESHOLD exampleVotes).consensus = Verdict.real ∧
    (determineConsensus CONSENSUS_THRESHOLD exampleVotes).confidence = some (85 : ℚ) := by
  refine ⟨?_, by rw [exampleVotes_eval], by rw [exampleVotes_eval]⟩
  unfold winningConfs
  cases hc : (determineConsensus threshold results).consensus with
  | real =>
    simp only [hc]
    exact determineConsensus_real_confidence hc
  | deepfake =>
    simp only [hc]
    exact determineConsensus_fake_confidence hc
  | inconclusive => exact absurd hc h

/-- C7 witness: the worked example has a winning side and its reported
confidence is the percentage mean of the two real votes. -/
theorem consensus_confidence_of_winner_witness :
    ((determineConsensus CONSENSUS_THRESHOLD exampleVotes).consensus ≠ Verdict.inconclusive) ∧
    ((determineConsensus CONSENSUS_THRESHOLD exampleVotes).confidence =
      some ((winningConfs CONSENSUS_THRESHOLD exampleVotes).sum /
        ((winningConfs CONSENSUS_THRESHOLD exampleVotes).length : ℚ) * 100) ∧
     (determineConsensus CONSENSUS_THRESHOLD exampleVotes).consensus = Verdict.real ∧
     (determineConsensus CONSENSUS_THRESHOLD exampleVotes).confidence = some (85 : ℚ)) :=
  ⟨by rw [exampleVotes_eval]; simp,
   consensus_confidence_of_winner CONSENSUS_THRESHOLD exampleVotes
     (by rw [exampleVotes_eval]; simp)⟩

/-- C7 counterexample: on the spec's worked example the decision is
`real` but the reported confidence is 85, not the arithmetic mean 0.85 —
the code multiplies the mean by 100 before reporting it. -/
theorem consensus_confidence_counterexample :
    (determineConsensus CONSENSUS_THRESHOLD exampleVotes).consensus = Verdict.real ∧
    (determineConsensus CONSENSUS_THRESHOLD exampleVotes).confidence ≠ some (17/20 : ℚ) ∧
    (determineConsensus CONSENSUS_THRESHOLD exampleVotes).confidence = some (85 : ℚ) := by
  rw [exampleVotes_eval]
  refine ⟨rfl, ?_, rfl⟩
  intro hcon
  simp only [Option.some.injEq] at hcon
  norm_num at hcon

end Consensus

namespace Hashing

theorem byteHexPad_length_pos (b : Nat) : 0 < (byteHexPad b).length := by
  unfold byteHexPad
  dsimp only
  split_ifs with h
  · rw [String.length_append]
    have : ("0" : String).length = 1 := rfl
    omega
  · omega

theorem concatHex_ne_empty {l : List Nat} (h : l ≠ []) : concatHex l ≠ "" := by
  cases l with
  | nil => exact absurd rfl h
  | cons b rest =>
    intro he
    have hlen : (byteHexPad b ++ concatHex rest).length = 0 := by
      rw [show byteHexPad b ++ concatHex rest = concatHex (b :: rest) from rfl, he]
      rfl
    rw [String.length_append] at hlen
    have := byteHexPad_length_pos b
    omega

theorem beBytes_length (n : Nat) : ∀ v, (beBytes n v).length = n := by
  induction n with
  | zero => intro v; rfl
  | succ n ih => intro v; simp [beBytes, ih]

theorem sha256Bytes_length (msg : List Nat) : (sha256Bytes msg).length = 32 := by
  unfold sha256Bytes
  simp [beBytes_length]

theorem hashHex_ne_empty (msg : List Nat) : hashHex msg ≠ "" := by
  unfold hashHex
  apply concatHex_ne_empty
  intro h
  have hl := sha256Bytes_length msg
  rw [h] at hl
  simp at hl

/-- C6: for every non-empty byte sequence, recomputing the fingerprint
of the same bytes succeeds and comparing it case-insensitively to the
recorded fingerprint yields `verified`. -/
theorem verify_roundtrip (content : List Nat) (h : content ≠ []) :
    ∃ hsh, calculateArrayBufferHash content = Except.ok hsh ∧
      verifyHash content hsh = VerificationStatus.verified := by
  have hlen : ¬ content.length = 0 := fun he => h (List.length_eq_zero.mp he)
  have hcalc : calculateArrayBufferHash content = Except.ok (hashHex content) := by
    unfold calculateArrayBufferHash
    rw [if_neg hlen]
  refine ⟨hashHex content, hcalc, ?_⟩
  unfold verifyHash
  rw [if_neg (hashHex_ne_empty content), if_neg hlen, hcalc]
  dsimp only
  rw [if_pos rfl]

/-- C6 witness: the round-trip at the one-byte content `[0]`. -/
theorem verify_roundtrip_witness :
    ([0] : List Nat) ≠ [] ∧
    ∃ hsh, calculateArrayBufferHash [0] = Except.ok hsh ∧
      verifyHash [0] hsh = VerificationStatus.verified :=
  ⟨by simp, verify_roundtrip [0] (by simp)⟩

end Hashing

namespace Consensus

theorem oneFakeVote_eval :
    (determineConsensus CONSENSUS_THRESHOLD oneFakeVote).consensus = Verdict.deepfake := by
  norm_num [determineConsensus, tally, tallyStep, oneFakeVote, totalVotes,
    realRatio, fakeRatio, CONSENSUS_THRESHOLD]

end Consensus

namespace Submit

open Consensus Upload

/-- C2: when the consensus decision is `deepfake` or `inconclusive`, the
submission flow performs no IPFS pin and no `contract.add` call: the
ledger state is returned unchanged and the effect list is empty. -/
theorem handleSubmit_gate (s : UploadState) (caller : Addr)
    (results : List NodeResult) (cid hash : String) (ts : Nat)
    (h : (determineConsensus CONSENSUS_THRESHOLD results).consensus = Verdict.deepfake ∨
         (determineConsensus CONSENSUS_THRESHOLD results).consensus = Verdict.inconclusive) :
    handleSubmit s caller results cid hash ts = (s, []) := by
  unfold handleSubmit
  rcases h with h | h <;> simp only [h]

/-- C2 witness: a unanimous fake vote blocks the pin and the ledger call
from the deployment state. -/
theorem handleSubmit_gate_witness :
    ((determineConsensus CONSENSUS_THRESHOLD oneFakeVote).consensus = Verdict.deepfake ∨
     (determineConsensus CONSENSUS_THRESHOLD oneFakeVote).consensus = Verdict.inconclusive) ∧
    handleSubmit initialState 1 oneFakeVote "cid" "hash" 0 = (initialState, []) :=
  ⟨Or.inl oneFakeVote_eval,
   handleSubmit_gate initialState 1 oneFakeVote "cid" "hash" 0 (Or.inl oneFakeVote_eval)⟩

end Submit

namespace Upload

/-- C10: for a CID that was never added, `checkItemAccess` returns
`false` for every identity, including the null address, regardless of
the grant relation's contents. -/
theorem checkAccess_unknown_cid (s : UploadState) (cid : String) (v : Addr)
    (h : s.cidExists cid = false) : checkItemAccess s cid v = false := by
  unfold checkItemAccess
  rw [if_pos h]

/-- C10 witness: the deployment state with the null identity. -/
theorem checkAccess_unknown_cid_witness :
    initialState.cidExists "qx" = false ∧ checkItemAccess initialState "qx" 0 = false :=
  ⟨rfl, checkAccess_unknown_cid initialState "qx" 0 rfl⟩

/-- C8: a revoke by any caller who is not the record's owner fails with
the owner-only error and the viewer's grant stays active. -/
theorem revoke_non_owner (s : UploadState) (c : Addr) (cid : String) (v : Addr)
    (hex : s.cidExists cid = true) (hc : (s.cidToRecord cid).owner ≠ c)
    (hacc : s.itemAccess cid v = true) :
    revokeItemAccess s c cid v = Except.error LedgerError.notOwnerRevoke ∧
    s.itemAccess cid v = true := by
  refine ⟨?_, hacc⟩
  unfold revokeItemAccess
  rw [if_neg (by simp [hex]), if_pos hc]

/-- C8 witness: caller `3` cannot revoke viewer `2`'s grant on owner
`1`'s record. -/
theorem revoke_non_owner_witness :
    s2ex.cidExists "cid1" = true ∧ (s2ex.cidToRecord "cid1").owner ≠ 3 ∧
    s2ex.itemAccess "cid1" 2 = true ∧
    (revokeItemAccess s2ex 3 "cid1" 2 = Except.error LedgerError.notOwnerRevoke ∧
      s2ex.itemAccess "cid1" 2 = true) :=
  ⟨by decide, by decide, by decide,
   revoke_non_owner s2ex 3 "cid1" 2 (by decide) (by decide) (by decide)⟩

end Upload

namespace Upload

/-- C5: for an existing record owned by `o` and a viewer `v` distinct
from `o` and from the null address with no active grant yet:
granting succeeds and `checkItemAccess` turns true; revoking then
succeeds and it turns false; granting again succeeds and it turns true
again. -/
theorem grant_revoke_grant_cycle (s : UploadState) (o v : Addr) (cid : String)
    (hex : s.cidExists cid = true) (howner : (s.cidToRecord cid).owner = o)
    (hvo : v ≠ o) (hv0 : v ≠ 0) (hacc : s.itemAccess cid v = false) :
    ∃ s₁, grantItemAccess s o cid v = Except.ok s₁ ∧
      checkItemAccess s₁ cid v = true ∧
      ∃ s₂, revokeItemAccess s₁ o cid v = Except.ok s₂ ∧
        checkItemAccess s₂ cid v = false ∧
        ∃ s₃, grantItemAccess s₂ o cid v = Except.ok s₃ ∧
          checkItemAccess s₃ cid v = true := by
  have hg1 : ∃ S1, grantItemAccess s o cid v = Except.ok S1 := by
    unfold grantItemAccess
    rw [if_neg (by simp [hex]), if_neg hv0, if_neg (not_not_intro howner), if_neg hvo,
      if_neg (by simp [hacc])]
    exact ⟨_, rfl⟩
  obtain ⟨S1, hg⟩ := hg1
  obtain ⟨-, -, -, -, -, hS1⟩ := grant_ok_inv hg
  have he1 : S1.cidExists cid = true := by rw [hS1]; exact hex
  have ho1 : (S1.cidToRecord cid).owner = o := by rw [hS1]; exact howner
  have ha1 : S1.itemAccess cid v = true := by rw [hS1]; exact upd2_same _ _ _ _
  have hl1 : S1.sharedWithUserCIDs v = s.sharedWithUserCIDs v ++ [cid] := by
    rw [hS1]; exact upd_same _ _ _
  have hi1 : S1.sharedWithUserIndex v cid = (s.sharedWithUserCIDs v).length + 1 := by
    rw [hS1]; exact upd2_same _ _ _ _
  have hr1 : ∃ S2, revokeItemAccess S1 o cid v = Except.ok S2 := by
    unfold revokeItemAccess
    dsimp only
    rw [if_neg (by simp [he1]), if_neg (not_not_intro ho1), if_neg (by simp [ha1]),
      hi1, Nat.add_sub_cancel, hl1, if_neg (by simp),
      if_neg (by simp [List.length_append])]
    exact ⟨_, rfl⟩
  obtain ⟨S2, hr⟩ := hr1
  obtain ⟨-, -, -, -, -, hS2⟩ := revoke_ok_inv hr
  have he2 : S2.cidExists cid = true := by rw [hS2]; exact he1
  have ho2 : (S2.cidToRecord cid).owner = o := by rw [hS2]; exact ho1
  have ha2 : S2.itemAccess cid v = false := by rw [hS2]; exact upd2_same _ _ _ _
  have hg3 : ∃ S3, grantItemAccess S2 o cid v = Except.ok S3 := by
    unfold grantItemAccess
    rw [if_neg (by simp [he2]), if_neg hv0, if_neg (not_not_intro ho2), if_neg hvo,
      if_neg (by simp [ha2])]
    exact ⟨_, rfl⟩
  obtain ⟨S3, hg2⟩ := hg3
  obtain ⟨-, -, -, -, -, hS3⟩ := grant_ok_inv hg2
  have he3 : S3.cidExists cid = true := by rw [hS3]; exact he2
  have ho3 : (S3.cidToRecord cid).owner = o := by rw [hS3]; exact ho2
  have ha3 : S3.itemAccess cid v = true := by rw [hS3]; exact upd2_same _ _ _ _
  have hc1 : checkItemAccess S1 cid v = true := by
    unfold checkItemAccess
    rw [if_neg (by simp [he1]), if_neg (by rw [ho1]; exact fun he => hvo he.symm)]
    exact ha1
  have hc2 : checkItemAccess S2 cid v = false := by
    unfold checkItemAccess
    rw [if_neg (by simp [he2]), if_neg (by rw [ho2]; exact fun he => hvo he.symm)]
    exact ha2
  have hc3 : checkItemAccess S3 cid v = true := by
    unfold checkItemAccess
    rw [if_neg (by simp [he3]), if_neg (by rw [ho3]; exact fun he => hvo he.symm)]
    exact ha3
  exact ⟨S1, hg, hc1, S2, hr, hc2, S3, hg2, hc3⟩

/-- C5 witness: the cycle on the concrete record `"cid1"` owned by `1`
with viewer `2`. -/
theorem grant_revoke_grant_cycle_witness :
    s1ex.cidExists "cid1" = true ∧ (s1ex.cidToRecord "cid1").owner = 1 ∧
    (2 : Addr) ≠ 1 ∧ (2 : Addr) ≠ 0 ∧ s1ex.itemAccess "cid1" 2 = false ∧
    ∃ s₁, grantItemAccess s1ex 1 "cid1" 2 = Except.ok s₁ ∧
      checkItemAccess s₁ "cid1" 2 = true ∧
      ∃ s₂, revokeItemAccess s₁ 1 "cid1" 2 = Except.ok s₂ ∧
        checkItemAccess s₂ "cid1" 2 = false ∧
        ∃ s₃, grantItemAccess s₂ 1 "cid1" 2 = Except.ok s₃ ∧
          checkItemAccess s₃ "cid1" 2 = true :=
  ⟨by decide, by decide, by decide, by decide, by decide,
   grant_revoke_grant_cycle s1ex 1 2 "cid1" (by decide) (by decide) (by decide)
     (by decide) (by decide)⟩

end Upload

namespace Upload

theorem s1ex_reachable : Reachable s1ex :=
  @Reachable.add initialState s1ex 1 "cid1" "h1" 0 Reachable.init rfl

theorem s2ex_reachable : Reachable s2ex :=
  @Reachable.grant s1ex s2ex 1 "cid1" 2 s1ex_reachable rfl

/-- C3 (amended: nonempty fingerprint): in any reachable ledger state in
which a record with CID `cid` already exists, `add` by any caller with
any nonempty fingerprint fails with the duplicate-CID error, so the
existing record is never overwritten and the state is unchanged. -/
theorem add_duplicate_fails (s : UploadState) (hs : Reachable s) (caller : Addr)
    (cid hash : String) (hex : s.cidExists cid = true) (hh : hash ≠ "") (ts : Nat) :
    add s caller cid hash ts = Except.error LedgerError.duplicateId := by
  have hinv := reachable_inv hs
  have hcid : cid ≠ "" := hinv.cid_ne cid hex
  unfold add
  rw [if_neg hcid, if_neg hh, if_pos (by rw [hex])]

/-- C3 witness: re-adding `"cid1"` with a fresh fingerprint in the state
where owner `1` already recorded it. -/
theorem add_duplicate_fails_witness :
    Reachable s1ex ∧ s1ex.cidExists "cid1" = true ∧ ("h2" : String) ≠ "" ∧
    add s1ex 2 "cid1" "h2" 1 = Except.error LedgerError.duplicateId :=
  ⟨s1ex_reachable, by decide, by decide,
   add_duplicate_fails s1ex s1ex_reachable 2 "cid1" "h2" (by decide) (by decide) 1⟩

/-- C3 counterexample: with an empty fingerprint, re-adding an existing
CID fails with the empty-hash error, not the duplicate-CID error — the
emptiness checks precede the duplicate check. -/
theorem add_duplicate_counterexample :
    s1ex.cidExists "cid1" = true ∧
    add s1ex 2 "cid1" "" 1 = Except.error LedgerError.emptyHash ∧
    add s1ex 2 "cid1" "" 1 ≠ Except.error LedgerError.duplicateId := by
  have heval : add s1ex 2 "cid1" "" 1 = Except.error LedgerError.emptyHash := rfl
  refine ⟨by decide, heval, ?_⟩
  rw [heval]
  simp

/-- The membership/ownership filter used by the shared-items loop of
`getAccessibleCIDsAndHashes`. -/
theorem accessibleShared_eq (s : UploadState) (caller : Addr) (maxCapacity : Nat) :
    ∀ (rest : List String) (acc : List (String × String × Addr)),
      acc.length + (rest.filter fun cid =>
        decide (s.itemAccess cid caller = true ∧ (s.cidToRecord cid).owner ≠ caller)).length
        ≤ maxCapacity →
      accessibleShared s caller maxCapacity rest acc =
        acc ++ (rest.filter fun cid =>
            decide (s.itemAccess cid caller = true ∧ (s.cidToRecord cid).owner ≠ caller)).map
          (fun cid => (cid, (s.cidToRecord cid).imageHash, (s.cidToRecord cid).owner)) := by
  intro rest
  induction rest with
  | nil => intro acc _; simp [accessibleShared]
  | cons c rest ih =>
    intro acc h
    by_cases hc : s.itemAccess c caller = true ∧ (s.cidToRecord c).owner ≠ caller
    · rw [List.filter_cons_of_pos (by simpa using hc)] at h ⊢
      have hlt : acc.length < maxCapacity := by
        simp only [List.length_cons] at h
        omega
      rw [accessibleShared, if_pos hc, if_pos hlt,
        ih (acc ++ [(c, (s.cidToRecord c).imageHash, (s.cidToRecord c).owner)])
          (by simp only [List.length_append, List.length_cons, List.length_nil] at h ⊢
              omega)]
      simp
    · rw [List.filter_cons_of_neg (by simpa using hc)] at h ⊢
      rw [accessibleShared, if_neg hc, ih acc h]

theorem accessibleCids_eq (s : UploadState) (caller : Addr) :
    accessibleCids s caller =
      s.userOwnedCIDs caller ++ (s.sharedWithUserCIDs caller).filter
        (fun cid => decide (s.itemAccess cid caller = true ∧
          (s.cidToRecord cid).owner ≠ caller)) := by
  unfold accessibleCids getAccessibleCIDsAndHashes
  dsimp only
  rw [accessibleShared_eq s caller _ (s.sharedWithUserCIDs caller)
    ((s.userOwnedCIDs caller).map
      (fun cid => (cid, (s.cidToRecord cid).imageHash, (s.cidToRecord cid).owner)))
    (by
      have := List.length_filter_le
        (fun cid => decide (s.itemAccess cid caller = true ∧
          (s.cidToRecord cid).owner ≠ caller)) (s.sharedWithUserCIDs caller)
      simp only [List.length_map]
      omega)]
  rw [List.map_append, List.map_map, List.map_map]
  have hid : ∀ (l : List String),
      (l.map ((fun x : String × String × Addr => x.1) ∘
        fun cid => (cid, (s.cidToRecord cid).imageHash, (s.cidToRecord cid).owner))) = l := by
    intro l
    induction l with
    | nil => rfl
    | cons a t iht =>
      simp only [List.map_cons, iht]
      rfl
  rw [hid, hid]

end Upload

namespace Upload

/-- C4: in any reachable ledger state, the accessible set for a caller is
exactly the owned records plus the viewer-index records whose grant is
currently active; it never contains duplicates; and immediately after a
successful revoke the revoked CID is absent from the viewer's accessible
set. -/
theorem getAccessible_spec (s : UploadState) (hs : Reachable s) (caller : Addr) :
    (∀ cid, cid ∈ accessibleCids s caller ↔
      (cid ∈ s.userOwnedCIDs caller ∨
        (cid ∈ s.sharedWithUserCIDs caller ∧ s.itemAccess cid caller = true))) ∧
    (accessibleCids s caller).Nodup ∧
    (∀ (o v : Addr) (cid : String) (s' : UploadState),
      revokeItemAccess s o cid v = Except.ok s' → cid ∉ accessibleCids s' v) := by
  have hinv := reachable_inv hs
  refine ⟨?_, ?_, ?_⟩
  · intro cid
    rw [accessibleCids_eq, List.mem_append, List.mem_filter]
    constructor
    · rintro (h1 | ⟨h2, h3⟩)
      · exact Or.inl h1
      · exact Or.inr ⟨h2, (of_decide_eq_true h3).1⟩
    · rintro (h1 | ⟨h2, h3⟩)
      · exact Or.inl h1
      · exact Or.inr ⟨h2, decide_eq_true ⟨h3, (hinv.access_exists cid caller h3).2⟩⟩
  · rw [accessibleCids_eq, List.nodup_append]
    refine ⟨hinv.owned_nodup caller, (hinv.shared_nodup caller).filter _, ?_⟩
    intro c hc1 hc2
    rw [List.mem_filter] at hc2
    exact (of_decide_eq_true hc2.2).2 (hinv.owned_exists caller c hc1).2
  · intro o v cid s' hrev
    obtain ⟨hex, howner, hacc, hidx, hlen, rfl⟩ := revoke_ok_inv hrev
    have hvo : (s.cidToRecord cid).owner ≠ v := (hinv.access_exists cid v hacc).2
    rw [accessibleCids_eq, List.mem_append, List.mem_filter]
    dsimp only
    rintro (h1 | ⟨h2, h3⟩)
    · exact hvo (hinv.owned_exists v cid h1).2
    · have := (of_decide_eq_true h3).1
      rw [upd2_same] at this
      cases this

/-- C4 witness: the accessible-set characterisation in the state where
owner `1` has recorded `"cid1"` and shared it with viewer `2`. -/
theorem getAccessible_spec_witness :
    Reachable s2ex ∧
    ((∀ cid, cid ∈ accessibleCids s2ex 2 ↔
        (cid ∈ s2ex.userOwnedCIDs 2 ∨
          (cid ∈ s2ex.sharedWithUserCIDs 2 ∧ s2ex.itemAccess cid 2 = true))) ∧
      (accessibleCids s2ex 2).Nodup ∧
      (∀ (o v : Addr) (cid : String) (s' : UploadState),
        revokeItemAccess s2ex o cid v = Except.ok s' → cid ∉ accessibleCids s' v)) :=
  ⟨s2ex_reachable, getAccessible_spec s2ex s2ex_reachable 2⟩

/-- C9: in every reachable ledger state each viewer-index is free of
duplicates, and a successful grant appends the CID to the viewer's index
exactly once (the CID was not in the index before the grant). -/
theorem viewer_index_nodup (s : UploadState) (hs : Reachable s) :
    (∀ v, (s.sharedWithUserCIDs v).Nodup) ∧
    (∀ (caller : Addr) (cid : String) (viewer : Addr) (s' : UploadState),
      grantItemAccess s caller cid viewer = Except.ok s' →
      cid ∉ s.sharedWithUserCIDs viewer ∧
      s'.sharedWithUserCIDs viewer = s.sharedWithUserCIDs viewer ++ [cid]) := by
  have hinv := reachable_inv hs
  refine ⟨hinv.shared_nodup, ?_⟩
  intro caller cid viewer s' hg
  obtain ⟨hex, hv0, howner, hvc, hacc, rfl⟩ := grant_ok_inv hg
  refine ⟨fun hm => ?_, ?_⟩
  · rw [(hinv.shared_iff viewer cid).mp hm] at hacc
    cases hacc
  · dsimp only
    rw [upd_same]

/-- C9 witness: the invariant in the single-record state, where granting
to viewer `2` appends `"cid1"` once. -/
theorem viewer_index_nodup_witness :
    Reachable s1ex ∧
    ((∀ v, (s1ex.sharedWithUserCIDs v).Nodup) ∧
      (∀ (caller : Addr) (cid : String) (viewer : Addr) (s' : UploadState),
        grantItemAccess s1ex caller cid viewer = Except.ok s' →
        cid ∉ s1ex.sharedWithUserCIDs viewer ∧
        s'.sharedWithUserCIDs viewer = s1ex.sharedWithUserCIDs viewer ++ [cid])) :=
  ⟨s1ex_reachable, viewer_index_nodup s1ex s1ex_reachable⟩

end Upload
